import Mathlib

/-!
Verification of the ssmeb parameter tool (src/ssmeb.go).

The program reads a declarative parameter file, then either fetches each
parameter value from a remote key-value store (get mode) and renders an
elastic-beanstalk option-settings document, or writes component parameter
values into the store (set mode).

Shallow embedding conventions:
  - The remote store is abstracted as a function argument: `fetch` for
    `ssmClient.GetParameter` and `put` for `ssmClient.PutParameter`.
    They return `Except eps String` resp. `Option eps` where `eps` is an
    abstract error type.
  - The standard input stream is a `List Char`; the buffered line read
    `reader.ReadString` is modelled as consuming characters up to and
    including the first newline, and failing (EOF) when no newline remains.
  - The loops also return traces of their store interactions, modelling
    the per-parameter progress messages printed to stderr and the
    `PutParameter` requests issued; `main` becomes `runMode`, returning a
    `RunOutcome` that records which output action the run performed.
-/

/-- The `parameter` struct of ssmeb.go (lines 26-35): one ssm parameter
descriptor with option name, optional description, store path and optional
literal value. -/
structure parameter where
  Name : String
  Description : String
  Path : String
  Value : String
deriving DecidableEq, Repr

/-- The `parameters` struct of ssmeb.go (lines 18-23): the input file holds
two ordered lists, component-owned parameters and external ones. -/
structure parameters where
  Component : List parameter
  External : List parameter
deriving DecidableEq, Repr

/-- The `ebOption` struct of ssmeb.go (lines 44-49): one output option. -/
structure ebOption where
  Name : String
  Value : String
deriving DecidableEq, Repr

/-- The `ebOptionSettings` struct of ssmeb.go (lines 39-41): the output
document, an ordered list of options. -/
structure ebOptionSettings where
  Options : List ebOption
deriving DecidableEq, Repr

/-- The `readParametersFile` function of ssmeb.go (lines 122-144). The file
read and the YAML unmarshal are I/O and are abstracted away: the function
receives the already parsed `parameters` value and performs the path rewrite
of lines 134-141, prepending `/` and the environment name to every path of
both lists when the environment string is non-empty. -/
def readParametersFile (parsed : parameters) (environment : String) : parameters :=
  if environment = "" then parsed
  else
    { Component := parsed.Component.map
        (fun par => { par with Path := "/" ++ environment ++ par.Path }),
      External := parsed.External.map
        (fun par => { par with Path := "/" ++ environment ++ par.Path }) }

/-- The body shared by the two loops of `getBeanstalkOptions` (ssmeb.go
lines 153-161 and 163-171): walk the given spec list, fetch each path, and
append an `ebOption` per success to the accumulator `eb`; on the first fetch
error return immediately with the error. The first component of the result
is the trace of paths passed to `fetch`, modelling the stderr progress line
printed before each `GetParameter` call. -/
def fetchLoop (eps : Type) (fetch : String → Except eps String) (eb : List ebOption) :
    List parameter → List String × List ebOption × Option eps
  | [] => ([], eb, none)
  | par :: rest =>
    match fetch par.Path with
    | Except.error e => ([par.Path], eb, some e)
    | Except.ok v =>
      let r := fetchLoop eps fetch (eb ++ [{ Name := par.Name, Value := v }]) rest
      (par.Path :: r.1, r.2.1, r.2.2)

/-- The `getBeanstalkOptions` function of ssmeb.go (lines 148-174): fetch
all component parameters, then all external parameters, accumulating the
output options; any fetch error aborts and is returned together with the
options accumulated so far. -/
def getBeanstalkOptions (eps : Type) (fetch : String → Except eps String)
    (ps : parameters) : List String × ebOptionSettings × Option eps :=
  let r1 := fetchLoop eps fetch [] ps.Component
  match r1.2.2 with
  | some e => (r1.1, { Options := r1.2.1 }, some e)
  | none =>
    let r2 := fetchLoop eps fetch r1.2.1 ps.External
    (r1.1 ++ r2.1, { Options := r2.2.1 }, r2.2.2)

/-- The `ssm.PutParameterInput` request built by `setBeanstalkOptions`
(ssmeb.go lines 198-204), restricted to the five fields the program sets.
The request type field is called `Type` in the source; `Type` is a Lean
keyword, so the field keeps the name of the local variable `parType` that
the source assigns to it. -/
structure PutParameterInput where
  Name : String
  Description : String
  Value : String
  Overwrite : Bool
  parType : String
deriving DecidableEq, Repr

/-- Error raised by the set pipeline: either the interactive read failed
(ssmeb.go line 188) or the store rejected a put request (line 207). -/
inductive SetErr (eps : Type) where
  | readError : SetErr eps
  | storeError (e : eps) : SetErr eps
deriving DecidableEq, Repr

/-- The `reader.ReadString` call of ssmeb.go line 187 with delimiter
newline: read characters up to and including the first newline, returning
the text read and the rest of the stream; `none` models the error returned
when the stream ends before a newline is found. -/
def readStringUntilNewline : List Char → Option (List Char × List Char)
  | [] => none
  | c :: cs =>
    if c = '\n' then some ([c], cs)
    else (readStringUntilNewline cs).map (fun r => (c :: r.1, r.2))

/-- The value cleanup of ssmeb.go line 191, strings.Replace with count -1:
remove every newline character from the text. -/
def removeNewlines (text : List Char) : List Char :=
  text.filter (fun c => c ≠ '\n')

/-- The value resolution step of the set loop (ssmeb.go lines 182-194): if
the spec has a non-empty literal value, use it and leave the input stream
alone; otherwise read one line interactively and strip its newlines. -/
def resolveValue (par : parameter) (stdin : List Char) : Option (String × List Char) :=
  if par.Value = "" then
    match readStringUntilNewline stdin with
    | none => none
    | some (text, rest) => some (String.mk (removeNewlines text), rest)
  else
    some (par.Value, stdin)

/-- The request construction of ssmeb.go lines 196-204: the put request for
one spec and one resolved value, with overwrite enabled and the plain
`String` parameter type. -/
def mkPutInput (par : parameter) (value : String) : PutParameterInput :=
  { Name := par.Path, Description := par.Description, Value := value,
    Overwrite := true, parType := "String" }

/-- The loop of `setBeanstalkOptions` (ssmeb.go lines 180-211): for each
component spec, resolve a value, build a `PutParameterInput` with overwrite
enabled and type `String`, and send it to the store; abort on the first
read or store error. Returns the list of issued put requests, the remaining
input stream and the error, if any. -/
def setLoop (eps : Type) (put : PutParameterInput → Option eps) :
    List parameter → List Char → List PutParameterInput × List Char × Option (SetErr eps)
  | [], stdin => ([], stdin, none)
  | par :: rest, stdin =>
    match resolveValue par stdin with
    | none => ([], stdin, some SetErr.readError)
    | some (value, stdin1) =>
      let ssmPar : PutParameterInput := mkPutInput par value
      match put ssmPar with
      | some e => ([ssmPar], stdin1, some (SetErr.storeError e))
      | none =>
        let r := setLoop eps put rest stdin1
        (ssmPar :: r.1, r.2.1, r.2.2)

/-- The `setBeanstalkOptions` function of ssmeb.go (lines 177-213): iterate
over the component list only. -/
def setBeanstalkOptions (eps : Type) (put : PutParameterInput → Option eps)
    (ps : parameters) (stdin : List Char) :
    List PutParameterInput × List Char × Option (SetErr eps) :=
  setLoop eps put ps.Component stdin

/-- Observable outcome of one `main` run (ssmeb.go lines 91-116): the get
pipeline either aborts fatally or emits the document to stdout or to the
output file; the set pipeline either aborts fatally or completes after its
put requests. -/
inductive RunOutcome (eps : Type) where
  | printed (doc : ebOptionSettings) : RunOutcome eps
  | wroteFile (path : String) (doc : ebOptionSettings) : RunOutcome eps
  | setDone (calls : List PutParameterInput) : RunOutcome eps
  | fatal (message : String) : RunOutcome eps
deriving DecidableEq, Repr

/-- The get branch of `main` (ssmeb.go lines 91-108): run
`getBeanstalkOptions`; on error abort fatally without emitting anything,
otherwise serialize and print to stdout when no output path is given, else
write to the output file. -/
def runGetPipeline (eps : Type) (fetch : String → Except eps String)
    (ps : parameters) (output : String) : RunOutcome eps :=
  let r := getBeanstalkOptions eps fetch ps
  match r.2.2 with
  | some _ => RunOutcome.fatal "Error getting values"
  | none =>
    if output = "" then RunOutcome.printed r.2.1
    else RunOutcome.wroteFile output r.2.1

/-- The set branch of `main` (ssmeb.go lines 109-113): run
`setBeanstalkOptions`; on error abort fatally. -/
def runSetPipeline (eps : Type) (put : PutParameterInput → Option eps)
    (ps : parameters) (stdin : List Char) : RunOutcome eps :=
  let r := setBeanstalkOptions eps put ps stdin
  match r.2.2 with
  | some _ => RunOutcome.fatal "Error setting values"
  | none => RunOutcome.setDone r.1

/-- The default of the mode flag (ssmeb.go lines 66-68): both `-mode` and
`-m` are registered with default value `get`. -/
def defaultMode : String := "get"

/-- The mode dispatch of `main` (ssmeb.go lines 91-116): `get` runs the get
pipeline, `set` runs the set pipeline, anything else is a fatal
configuration error. -/
def runMode (eps : Type) (mode : String) (fetch : String → Except eps String)
    (put : PutParameterInput → Option eps) (ps : parameters)
    (stdin : List Char) (output : String) : RunOutcome eps :=
  if mode = "get" then runGetPipeline eps fetch ps output
  else if mode = "set" then runSetPipeline eps put ps stdin
  else RunOutcome.fatal ("Invalid mode: " ++ mode)

/-- Modelled from the spec: escaping of one character inside a scalar of
the structured-text codec. The codec itself (yaml.Marshal / yaml.Unmarshal
of the gopkg.in/yaml.v2 library, used at ssmeb.go line 97) is an external
collaborator whose code is not part of this repository; section 6 of the
spec describes it only as a marshal/unmarshal pair between the
option-settings mapping and raw text. Backslash, double quote and newline
are escaped so that a scalar never spans lines. -/
def escapeChar (c : Char) : List Char :=
  if c = '\\' then ['\\', '\\']
  else if c = '"' then ['\\', '"']
  else if c = '\n' then ['\\', 'n']
  else [c]

/-- Modelled from the spec: escape a whole scalar of the structured-text
codec, character by character. -/
def quoteChars : List Char → List Char
  | [] => []
  | c :: cs => escapeChar c ++ quoteChars cs

/-- Modelled from the spec: decoding of one escape code of the
structured-text codec; inverse of `escapeChar`. -/
def unescapeChar (c : Char) : Option Char :=
  if c = '\\' then some '\\'
  else if c = '"' then some '"'
  else if c = 'n' then some '\n'
  else none

/-- Modelled from the spec: unescape a scalar of the structured-text codec;
rejects a dangling backslash and raw characters that must appear escaped. -/
def unquoteChars : List Char → Option (List Char)
  | [] => some []
  | c :: cs =>
    if c = '\\' then
      match cs with
      | [] => none
      | d :: ds =>
        match unescapeChar d, unquoteChars ds with
        | some u, some rest => some (u :: rest)
        | _, _ => none
    else if c = '"' ∨ c = '\n' then none
    else
      match unquoteChars cs with
      | some rest => some (c :: rest)
      | none => none

/-- Modelled from the spec: serialization of one output option as two lines
of the option-settings sequence, mirroring the layout of section 6
(`option_name` entry line, then indented `value` line). -/
def marshalOption (o : ebOption) : List (List Char) :=
  [("- option_name: ".data) ++ quoteChars o.Name.data,
   ("  value: ".data) ++ quoteChars o.Value.data]

/-- Modelled from the spec: the marshal direction of the structured-text
codec for an `ebOptionSettings` document, as a list of text lines: the
`option_settings:` header, then two lines per option in document order. -/
def yamlMarshal (doc : ebOptionSettings) : List (List Char) :=
  "option_settings:".data :: (doc.Options.map marshalOption).flatten

/-- Modelled from the spec: remove an expected literal prefix from a line,
failing when the line does not start with it. -/
def stripPrefixChars : List Char → List Char → Option (List Char)
  | [], l => some l
  | _ :: _, [] => none
  | p :: ps, c :: cs => if p = c then stripPrefixChars ps cs else none

/-- Modelled from the spec: parse the option lines of the serialized
document, two lines per option. -/
def parseOptionLines : List (List Char) → Option (List ebOption)
  | [] => some []
  | l1 :: l2 :: rest =>
    match stripPrefixChars "- option_name: ".data l1,
          stripPrefixChars "  value: ".data l2 with
    | some n1, some v1 =>
      match unquoteChars n1, unquoteChars v1, parseOptionLines rest with
      | some name, some value, some tail =>
        some ({ Name := String.mk name, Value := String.mk value } :: tail)
      | _, _, _ => none
    | _, _ => none
  | [_] => none

/-- Modelled from the spec: the unmarshal direction of the structured-text
codec: expect the `option_settings:` header line, then parse the option
lines. -/
def yamlUnmarshal (lines : List (List Char)) : Option ebOptionSettings :=
  match lines with
  | [] => none
  | h :: rest =>
    if h = "option_settings:".data then
      (parseOptionLines rest).map (fun opts => { Options := opts })
    else none

/-- Concrete fixture: a component parameter at path `/a`. -/
def parA : parameter :=
  { Name := "A", Description := "", Path := "/a", Value := "" }

/-- Concrete fixture: a component parameter at path `/b`. -/
def parB : parameter :=
  { Name := "B", Description := "", Path := "/b", Value := "" }

/-- Concrete fixture: an external parameter at path `/c`. -/
def parC : parameter :=
  { Name := "C", Description := "", Path := "/c", Value := "" }

/-- Concrete fixture: two component parameters and one external one. -/
def psABC : parameters :=
  { Component := [parA, parB], External := [parC] }

/-- Concrete fixture: a component parameter carrying a literal value. -/
def parV : parameter :=
  { Name := "X", Description := "d", Path := "/x", Value := "abc" }

/-- C2: readParametersFile leaves every path unchanged when the environment
string is empty, and otherwise rewrites every path P of both lists, and
nothing else, to "/" ++ environment ++ P. -/
theorem readParametersFileRewrite (parsed : parameters) (environment : String) :
    (readParametersFile parsed environment).Component = parsed.Component.map
      (fun par =>
        if environment = "" then par
        else { par with Path := "/" ++ environment ++ par.Path }) ∧
    (readParametersFile parsed environment).External = parsed.External.map
      (fun par =>
        if environment = "" then par
        else { par with Path := "/" ++ environment ++ par.Path }) := by
  by_cases h : environment = "" <;>
    simp [readParametersFile, h]

/-- With a fetch that succeeds everywhere, `fetchLoop` walks the whole list,
fetching each path once in order, and appends one option per spec. -/
theorem fetchLoop_ok (eps : Type) (fetch : String → Except eps String)
    (f : String → String) (h : ∀ p, fetch p = Except.ok (f p))
    (specs : List parameter) (eb : List ebOption) :
    fetchLoop eps fetch eb specs =
      (specs.map (fun par => par.Path),
       eb ++ specs.map (fun par => { Name := par.Name, Value := f par.Path }),
       none) := by
  induction specs generalizing eb with
  | nil => simp [fetchLoop]
  | cons par rest ih => simp [fetchLoop, h par.Path, ih]

/-- When the walk of the first list fails, appending a second list does not
change the result of `fetchLoop`. -/
theorem fetchLoop_append_err (eps : Type) (fetch : String → Except eps String)
    (l1 l2 : List parameter) (eb : List ebOption) (e : eps)
    (h : (fetchLoop eps fetch eb l1).2.2 = some e) :
    fetchLoop eps fetch eb (l1 ++ l2) = fetchLoop eps fetch eb l1 := by
  induction l1 generalizing eb with
  | nil => simp [fetchLoop] at h
  | cons par rest ih =>
    cases hf : fetch par.Path with
    | error e2 => simp [fetchLoop, hf]
    | ok v =>
      simp only [List.cons_append, fetchLoop, hf] at h ⊢
      simp only [List.append_eq]
      rw [ih _ h]

/-- When the walk of the first list succeeds, `fetchLoop` over the
concatenation continues over the second list from the accumulated options,
concatenating the two traces. -/
theorem fetchLoop_append_ok (eps : Type) (fetch : String → Except eps String)
    (l1 l2 : List parameter) (eb : List ebOption)
    (h : (fetchLoop eps fetch eb l1).2.2 = none) :
    fetchLoop eps fetch eb (l1 ++ l2) =
      ((fetchLoop eps fetch eb l1).1 ++
         (fetchLoop eps fetch (fetchLoop eps fetch eb l1).2.1 l2).1,
       (fetchLoop eps fetch (fetchLoop eps fetch eb l1).2.1 l2).2) := by
  induction l1 generalizing eb with
  | nil => simp [fetchLoop]
  | cons par rest ih =>
    cases hf : fetch par.Path with
    | error e2 => simp [fetchLoop, hf] at h
    | ok v =>
      simp only [List.cons_append, fetchLoop, hf] at h ⊢
      simp only [List.append_eq]
      rw [ih _ h]

/-- `getBeanstalkOptions` behaves as one `fetchLoop` walk over the
concatenation of the component and external lists. -/
theorem getBeanstalkOptions_concat (eps : Type) (fetch : String → Except eps String)
    (ps : parameters) :
    getBeanstalkOptions eps fetch ps =
      ((fetchLoop eps fetch [] (ps.Component ++ ps.External)).1,
       { Options := (fetchLoop eps fetch [] (ps.Component ++ ps.External)).2.1 },
       (fetchLoop eps fetch [] (ps.Component ++ ps.External)).2.2) := by
  cases h1 : (fetchLoop eps fetch [] ps.Component).2.2 with
  | some e =>
    rw [getBeanstalkOptions, fetchLoop_append_err eps fetch _ _ _ e h1]
    simp [h1]
  | none =>
    rw [getBeanstalkOptions, fetchLoop_append_ok eps fetch _ _ _ h1]
    simp [h1]

/-- C1: in get mode, with a fetch behavior that succeeds on all paths, the
output option list of getBeanstalkOptions has length
len(Component) + len(External), and its i-th entry is the option name and
fetched value of the i-th spec of Component ++ External. -/
theorem getModeOutputOrder (eps : Type) (fetch : String → Except eps String)
    (f : String → String) (ps : parameters)
    (h : ∀ p, fetch p = Except.ok (f p)) :
    (getBeanstalkOptions eps fetch ps).2.2 = none ∧
    (getBeanstalkOptions eps fetch ps).2.1.Options.length
      = ps.Component.length + ps.External.length ∧
    ∀ i : Nat, (getBeanstalkOptions eps fetch ps).2.1.Options[i]? =
      ((ps.Component ++ ps.External)[i]?).map
        (fun par => { Name := par.Name, Value := f par.Path }) := by
  rw [getBeanstalkOptions_concat, fetchLoop_ok eps fetch f h]
  refine ⟨rfl, by simp, fun i => by simp [← List.map_append, List.getElem?_map]⟩

/-- Witness for C1: one component and one external parameter, a fetch that
returns "v" ++ path everywhere. -/
theorem getModeOutputOrderWitness :
    (∀ p, (fun q => (Except.ok ("v" ++ q) : Except Unit String)) p
        = Except.ok ((fun q => "v" ++ q) p)) ∧
    ((getBeanstalkOptions Unit (fun q => Except.ok ("v" ++ q))
        { Component := [parA], External := [parC] }).2.2 = none ∧
     (getBeanstalkOptions Unit (fun q => Except.ok ("v" ++ q))
        { Component := [parA], External := [parC] }).2.1.Options.length
        = [parA].length + [parC].length ∧
     ∀ i : Nat, (getBeanstalkOptions Unit (fun q => Except.ok ("v" ++ q))
        { Component := [parA], External := [parC] }).2.1.Options[i]? =
        (([parA] ++ [parC])[i]?).map
          (fun par => { Name := par.Name, Value := "v" ++ par.Path })) :=
  ⟨fun _ => rfl,
   getModeOutputOrder Unit (fun q => Except.ok ("v" ++ q)) (fun q => "v" ++ q)
     { Component := [parA], External := [parC] } (fun _ => rfl)⟩

/-- When every spec before `par` fetches successfully and `par` itself
fails, `fetchLoop` stops at `par`: the trace covers exactly the prefix and
the failing path, the accumulated options cover exactly the prefix, and the
error is returned. -/
theorem fetchLoop_fail (eps : Type) (fetch : String → Except eps String)
    (f : String → String) (e : eps)
    (pre : List parameter) (par : parameter) (post : List parameter)
    (hpre : ∀ q ∈ pre, fetch q.Path = Except.ok (f q.Path))
    (hfail : fetch par.Path = Except.error e) (eb : List ebOption) :
    fetchLoop eps fetch eb (pre ++ par :: post) =
      (pre.map (fun q => q.Path) ++ [par.Path],
       eb ++ pre.map (fun q => { Name := q.Name, Value := f q.Path }),
       some e) := by
  induction pre generalizing eb with
  | nil => simp [fetchLoop, hfail]
  | cons q rest ih =>
    have hq := hpre q (by simp)
    simp only [List.cons_append, fetchLoop, hq]
    simp only [List.append_eq]
    rw [ih (fun x hx => hpre x (by simp [hx]))]
    simp

/-- C10: when every spec of the concatenated component-then-external
sequence before `par` fetches successfully and `par` itself fails,
getBeanstalkOptions returns the error together with an ebOptionSettings
value holding exactly the options of the prefix, in input order. -/
theorem getModePartialAccumulator (eps : Type) (fetch : String → Except eps String)
    (f : String → String) (e : eps) (ps : parameters)
    (pre : List parameter) (par : parameter) (post : List parameter)
    (hsplit : ps.Component ++ ps.External = pre ++ par :: post)
    (hpre : ∀ q ∈ pre, fetch q.Path = Except.ok (f q.Path))
    (hfail : fetch par.Path = Except.error e) :
    (getBeanstalkOptions eps fetch ps).2.2 = some e ∧
    (getBeanstalkOptions eps fetch ps).2.1.Options =
      pre.map (fun q => { Name := q.Name, Value := f q.Path }) := by
  rw [getBeanstalkOptions_concat, hsplit,
      fetchLoop_fail eps fetch f e pre par post hpre hfail]
  simp

/-- Witness for C10: of three parameters the second one fails; the returned
accumulator holds exactly the first option. -/
theorem getModePartialAccumulatorWitness :
    psABC.Component ++ psABC.External = [parA] ++ parB :: [parC] ∧
    (∀ q ∈ [parA],
      (fun p => if p = "/b" then (Except.error () : Except Unit String)
                else Except.ok ("v" ++ p)) q.Path = Except.ok ("v" ++ q.Path)) ∧
    (fun p => if p = "/b" then (Except.error () : Except Unit String)
              else Except.ok ("v" ++ p)) parB.Path = Except.error () ∧
    ((getBeanstalkOptions Unit
        (fun p => if p = "/b" then Except.error () else Except.ok ("v" ++ p))
        psABC).2.2 = some () ∧
     (getBeanstalkOptions Unit
        (fun p => if p = "/b" then Except.error () else Except.ok ("v" ++ p))
        psABC).2.1.Options =
       [parA].map (fun q => { Name := q.Name, Value := "v" ++ q.Path })) :=
  ⟨rfl,
   fun q hq => by simp only [List.mem_singleton] at hq; subst hq; rfl,
   rfl,
   getModePartialAccumulator Unit
     (fun p => if p = "/b" then Except.error () else Except.ok ("v" ++ p))
     (fun p => "v" ++ p) () psABC [parA] parB [parC] rfl
     (fun q hq => by simp only [List.mem_singleton] at hq; subst hq; rfl) rfl⟩

/-- C3: in get mode, when the fetch of one spec of the concatenated
sequence fails after all earlier specs fetched successfully, the run aborts
fatally — no document is printed to stdout and no file is written — and no
spec after the failing one is fetched: the fetch trace is exactly the
prefix paths followed by the failing path. -/
theorem getModeFailureAborts (eps : Type) (fetch : String → Except eps String)
    (f : String → String) (e : eps) (put : PutParameterInput → Option eps)
    (ps : parameters) (stdin : List Char) (output : String)
    (pre : List parameter) (par : parameter) (post : List parameter)
    (hsplit : ps.Component ++ ps.External = pre ++ par :: post)
    (hpre : ∀ q ∈ pre, fetch q.Path = Except.ok (f q.Path))
    (hfail : fetch par.Path = Except.error e) :
    runMode eps "get" fetch put ps stdin output
      = RunOutcome.fatal "Error getting values" ∧
    (getBeanstalkOptions eps fetch ps).1
      = pre.map (fun q => q.Path) ++ [par.Path] := by
  have hchar := getBeanstalkOptions_concat eps fetch ps
  rw [hsplit, fetchLoop_fail eps fetch f e pre par post hpre hfail] at hchar
  constructor
  · simp [runMode, runGetPipeline, hchar]
  · simp [hchar]

/-- Witness for C3: the second of three parameters fails; the run is fatal
and the third path never reaches the fetch trace. -/
theorem getModeFailureAbortsWitness :
    psABC.Component ++ psABC.External = [parA] ++ parB :: [parC] ∧
    (∀ q ∈ [parA],
      (fun p => if p = "/b" then (Except.error () : Except Unit String)
                else Except.ok ("v" ++ p)) q.Path = Except.ok ("v" ++ q.Path)) ∧
    (fun p => if p = "/b" then (Except.error () : Except Unit String)
              else Except.ok ("v" ++ p)) parB.Path = Except.error () ∧
    (runMode Unit "get"
        (fun p => if p = "/b" then Except.error () else Except.ok ("v" ++ p))
        (fun _ => none) psABC [] "" = RunOutcome.fatal "Error getting values" ∧
     (getBeanstalkOptions Unit
        (fun p => if p = "/b" then Except.error () else Except.ok ("v" ++ p))
        psABC).1 = [parA].map (fun q => q.Path) ++ [parB.Path]) :=
  ⟨rfl,
   fun q hq => by simp only [List.mem_singleton] at hq; subst hq; rfl,
   rfl,
   getModeFailureAborts Unit
     (fun p => if p = "/b" then Except.error () else Except.ok ("v" ++ p))
     (fun p => "v" ++ p) () (fun _ => none) psABC [] "" [parA] parB [parC] rfl
     (fun q hq => by simp only [List.mem_singleton] at hq; subst hq; rfl) rfl⟩

/-- The put requests issued by `setLoop` address a prefix of the spec list,
one request per spec in input order, each at the path of its spec; the
prefix is the whole list when no error occurred. -/
theorem setLoop_calls_prefix (eps : Type) (put : PutParameterInput → Option eps)
    (specs : List parameter) (stdin : List Char) :
    ∃ n, n ≤ specs.length ∧
      (setLoop eps put specs stdin).1.map (fun c => c.Name)
        = (specs.take n).map (fun q => q.Path) ∧
      ((setLoop eps put specs stdin).2.2 = none → n = specs.length) := by
  induction specs generalizing stdin with
  | nil => exact ⟨0, by simp [setLoop]⟩
  | cons par rest ih =>
    cases hr : resolveValue par stdin with
    | none =>
      exact ⟨0, by simp, by simp [setLoop, hr], by simp [setLoop, hr]⟩
    | some vs =>
      obtain ⟨value, stdin1⟩ := vs
      cases hp : put (mkPutInput par value) with
      | some e =>
        refine ⟨1, by simp, ?_, ?_⟩
        · simp only [setLoop, hr, hp]
          simp [mkPutInput]
        · simp only [setLoop, hr, hp]
          simp
      | none =>
        obtain ⟨n, hn, hcalls, herr⟩ := ih stdin1
        refine ⟨n + 1, by simpa using hn, ?_, ?_⟩
        · simp only [setLoop, hr, hp]
          simp [mkPutInput, hcalls]
        · intro h0
          simp only [setLoop, hr, hp] at h0
          simp [herr h0]

/-- C4: set mode is a frame over the external list — its result does not
depend on that list at all, so no external spec is ever passed to store —
and the put requests it issues are addressed exactly at the component spec
paths, in input order: all of them when the run succeeds, a prefix of them
when it aborts early. -/
theorem setModeOnlyComponent (eps : Type) (put : PutParameterInput → Option eps)
    (stdin : List Char) (C E1 E2 : List parameter) :
    setBeanstalkOptions eps put { Component := C, External := E1 } stdin
      = setBeanstalkOptions eps put { Component := C, External := E2 } stdin ∧
    ∃ n, n ≤ C.length ∧
      (setBeanstalkOptions eps put { Component := C, External := E1 } stdin).1.map
          (fun c => c.Name)
        = (C.take n).map (fun q => q.Path) ∧
      ((setBeanstalkOptions eps put { Component := C, External := E1 } stdin).2.2
          = none → n = C.length) :=
  ⟨rfl, setLoop_calls_prefix eps put C stdin⟩

/-- Witness for C4: one component spec with a literal value, two different
external lists. -/
theorem setModeOnlyComponentWitness :
    setBeanstalkOptions Unit (fun _ => none) { Component := [parV], External := [parC] } []
      = setBeanstalkOptions Unit (fun _ => none) { Component := [parV], External := [] } [] ∧
    ∃ n, n ≤ [parV].length ∧
      (setBeanstalkOptions Unit (fun _ => none)
          { Component := [parV], External := [parC] } []).1.map (fun c => c.Name)
        = ([parV].take n).map (fun q => q.Path) ∧
      ((setBeanstalkOptions Unit (fun _ => none)
          { Component := [parV], External := [parC] } []).2.2 = none
        → n = [parV].length) :=
  setModeOnlyComponent Unit (fun _ => none) [] [parV] [parC] []

/-- C5: a component spec with a non-empty literal value never consumes the
input stream — resolveValue returns the literal value with stdin untouched
— and the put request the set loop issues for it carries exactly that
value. The spec list `par :: rest` is the set loop at the point where the
spec is about to be processed, for any stream state reached there. -/
theorem setModeValueNoPrompt (eps : Type) (put : PutParameterInput → Option eps)
    (stdin : List Char) (par : parameter) (rest : List parameter)
    (h : par.Value ≠ "") :
    resolveValue par stdin = some (par.Value, stdin) ∧
    (setLoop eps put (par :: rest) stdin).1.head? =
      some { Name := par.Path, Description := par.Description,
             Value := par.Value, Overwrite := true, parType := "String" } := by
  have hr : resolveValue par stdin = some (par.Value, stdin) := by
    simp [resolveValue, h]
  refine ⟨hr, ?_⟩
  cases hp : put (mkPutInput par par.Value) with
  | some e =>
    simp only [setLoop, hr, hp]
    simp [mkPutInput]
  | none =>
    simp only [setLoop, hr, hp]
    simp [mkPutInput]

/-- Witness for C5: a spec with literal value "abc" on an empty stream. -/
theorem setModeValueNoPromptWitness :
    parV.Value ≠ "" ∧
    (resolveValue parV [] = some (parV.Value, []) ∧
     (setLoop Unit (fun _ => none) [parV] []).1.head? =
       some { Name := parV.Path, Description := parV.Description,
              Value := parV.Value, Overwrite := true, parType := "String" }) :=
  ⟨by decide, setModeValueNoPrompt Unit (fun _ => none) [] parV [] (by decide)⟩

/-- When the stream starts with a newline-free line followed by a newline,
the line read returns exactly that line with its newline, and the rest of
the stream. -/
theorem readStringUntilNewline_line (line rest : List Char) (hl : '\n' ∉ line) :
    readStringUntilNewline (line ++ '\n' :: rest) = some (line ++ ['\n'], rest) := by
  induction line with
  | nil => simp [readStringUntilNewline]
  | cons c cs ih =>
    have hc : c ≠ '\n' := by
      intro h
      exact hl (by simp [h])
    have hcs : '\n' ∉ cs := fun h => hl (by simp [h])
    simp [readStringUntilNewline, hc, ih hcs]

/-- Removing the newlines of a newline-free line plus its trailing newline
gives back exactly the line. -/
theorem removeNewlines_line (line : List Char) (hl : '\n' ∉ line) :
    removeNewlines (line ++ ['\n']) = line := by
  unfold removeNewlines
  rw [List.filter_append]
  have h1 : List.filter (fun c => c ≠ '\n') line = line := by
    apply List.filter_eq_self.mpr
    intro c hc
    have hcn : c ≠ '\n' := fun h => hl (h ▸ hc)
    simp [hcn]
  have h2 : List.filter (fun c => c ≠ '\n') ['\n'] = [] := by simp
  rw [h1, h2, List.append_nil]

/-- C6: when a component spec has an empty literal value, the value the set
loop resolves from the input stream is exactly the line before the first
newline with only that trailing newline removed — every other character of
the line, leading and trailing spaces included, is preserved unchanged —
and the put request issued for the spec carries that value. The spec list
`par :: specs` is the set loop at the point where the spec is about to be
processed. -/
theorem setModeInteractiveTrim (eps : Type) (put : PutParameterInput → Option eps)
    (par : parameter) (specs : List parameter) (line rest : List Char)
    (hv : par.Value = "") (hl : '\n' ∉ line) :
    resolveValue par (line ++ '\n' :: rest) = some (String.mk line, rest) ∧
    (setLoop eps put (par :: specs) (line ++ '\n' :: rest)).1.head? =
      some { Name := par.Path, Description := par.Description,
             Value := String.mk line, Overwrite := true, parType := "String" } := by
  have hr : resolveValue par (line ++ '\n' :: rest) = some (String.mk line, rest) := by
    rw [resolveValue, if_pos hv, readStringUntilNewline_line line rest hl]
    simp [removeNewlines_line line hl]
  refine ⟨hr, ?_⟩
  cases hp : put (mkPutInput par (String.mk line)) with
  | some e =>
    simp only [setLoop, hr, hp]
    simp [mkPutInput]
  | none =>
    simp only [setLoop, hr, hp]
    simp [mkPutInput]

/-- Witness for C6: a line with leading and trailing spaces is stored
exactly, only the newline stripped. -/
theorem setModeInteractiveTrimWitness :
    (parA.Value = "" ∧ '\n' ∉ " a b ".data) ∧
    (resolveValue parA (" a b ".data ++ '\n' :: []) = some (String.mk " a b ".data, []) ∧
     (setLoop Unit (fun _ => none) [parA] (" a b ".data ++ '\n' :: [])).1.head? =
       some { Name := parA.Path, Description := parA.Description,
              Value := String.mk " a b ".data, Overwrite := true,
              parType := "String" }) :=
  ⟨⟨rfl, by decide⟩,
   setModeInteractiveTrim Unit (fun _ => none) parA [] " a b ".data [] rfl (by decide)⟩

/-- Every put request issued by `setLoop` has overwrite enabled and the
plain `String` parameter type. -/
theorem setLoop_overwrite_type (eps : Type) (put : PutParameterInput → Option eps)
    (specs : List parameter) (stdin : List Char) :
    ∀ c ∈ (setLoop eps put specs stdin).1,
      c.Overwrite = true ∧ c.parType = "String" := by
  induction specs generalizing stdin with
  | nil => simp [setLoop]
  | cons par rest ih =>
    intro c hc
    cases hr : resolveValue par stdin with
    | none => simp [setLoop, hr] at hc
    | some vs =>
      obtain ⟨value, stdin1⟩ := vs
      cases hp : put (mkPutInput par value) with
      | some e =>
        simp only [setLoop, hr, hp] at hc
        simp at hc
        subst hc
        exact ⟨rfl, rfl⟩
      | none =>
        simp only [setLoop, hr, hp] at hc
        simp at hc
        rcases hc with rfl | hc
        · exact ⟨rfl, rfl⟩
        · exact ih stdin1 c hc

/-- C7: every put request set mode sends to the store has overwrite enabled
and the parameter type fixed to the plain `String` type. -/
theorem setModeOverwriteStringType (eps : Type) (put : PutParameterInput → Option eps)
    (ps : parameters) (stdin : List Char) :
    ∀ c ∈ (setBeanstalkOptions eps put ps stdin).1,
      c.Overwrite = true ∧ c.parType = "String" :=
  setLoop_overwrite_type eps put ps.Component stdin

/-- Witness for C7: the one request of a one-spec run has overwrite enabled
and type String. -/
theorem setModeOverwriteStringTypeWitness :
    mkPutInput parV "abc" ∈ (setBeanstalkOptions Unit (fun _ => none)
        { Component := [parV], External := [] } []).1 ∧
    (mkPutInput parV "abc").Overwrite = true ∧
    (mkPutInput parV "abc").parType = "String" :=
  ⟨by decide,
   setModeOverwriteStringType Unit (fun _ => none)
     { Component := [parV], External := [] } [] (mkPutInput parV "abc") (by decide)⟩

/-- C8: the mode flag defaults to get; mode get runs the get pipeline, mode
set runs the set pipeline, and any other mode value yields the fatal
invalid-mode outcome, whatever the store behaviors and inputs are — neither
pipeline is invoked. -/
theorem modeFlagDispatch (eps : Type) (fetch : String → Except eps String)
    (put : PutParameterInput → Option eps) (ps : parameters)
    (stdin : List Char) (output : String) :
    defaultMode = "get" ∧
    runMode eps defaultMode fetch put ps stdin output
      = runGetPipeline eps fetch ps output ∧
    runMode eps "set" fetch put ps stdin output
      = runSetPipeline eps put ps stdin ∧
    ∀ m : String, m ≠ "get" → m ≠ "set" →
      runMode eps m fetch put ps stdin output
        = RunOutcome.fatal ("Invalid mode: " ++ m) := by
  refine ⟨rfl, rfl, by simp [runMode, defaultMode], fun m h1 h2 => ?_⟩
  simp [runMode, h1, h2]

/-- Witness for C8: the unrecognized mode `frob` is fatal on a concrete
input. -/
theorem modeFlagDispatchWitness :
    ("frob" ≠ "get" ∧ "frob" ≠ "set") ∧
    runMode Unit "frob" (fun p => Except.ok p) (fun _ => none) psABC [] ""
      = RunOutcome.fatal ("Invalid mode: " ++ "frob") :=
  ⟨⟨by decide, by decide⟩,
   (modeFlagDispatch Unit (fun p => Except.ok p) (fun _ => none)
       psABC [] "").2.2.2 "frob" (by decide) (by decide)⟩

/-- Removing an expected literal prefix from a line that carries it returns
the remainder. -/
theorem stripPrefixChars_append (p l : List Char) :
    stripPrefixChars p (p ++ l) = some l := by
  induction p with
  | nil => simp [stripPrefixChars]
  | cons c cs ih => simp [stripPrefixChars, ih]

/-- Unescaping inverts escaping on every scalar. -/
theorem unquoteChars_quoteChars (s : List Char) :
    unquoteChars (quoteChars s) = some s := by
  induction s with
  | nil => simp [quoteChars, unquoteChars]
  | cons c cs ih =>
    by_cases h1 : c = '\\'
    · subst h1
      simp [quoteChars, escapeChar, unquoteChars, unescapeChar, ih]
    · by_cases h2 : c = '"'
      · subst h2
        simp [quoteChars, escapeChar, unquoteChars, unescapeChar, ih, h1]
      · by_cases h3 : c = '\n'
        · subst h3
          simp [quoteChars, escapeChar, unquoteChars, unescapeChar, ih]
        · simp only [quoteChars, escapeChar, if_neg h1, if_neg h2, if_neg h3,
                     List.singleton_append]
          rw [unquoteChars.eq_def]
          simp only [if_neg h1]
          rw [if_neg (by tauto), ih]

/-- A Lean string is its character list. -/
theorem stringMkData (s : String) : String.mk s.data = s := rfl

/-- Parsing the marshalled option lines returns exactly the options. -/
theorem parseOptionLines_marshal (opts : List ebOption) :
    parseOptionLines ((opts.map marshalOption).flatten) = some opts := by
  induction opts with
  | nil => simp [parseOptionLines]
  | cons o rest ih =>
    simp [marshalOption, parseOptionLines, stripPrefixChars,
          unquoteChars_quoteChars, ih, stringMkData]

/-- C9: serializing any output document with the structured-text codec and
parsing the result back yields the same document, with the same ordered
name-value pairs. -/
theorem outputRoundTrip (doc : ebOptionSettings) :
    yamlUnmarshal (yamlMarshal doc) = some doc := by
  cases doc with
  | mk opts => simp [yamlMarshal, yamlUnmarshal, parseOptionLines_marshal]
